import Mathlib

/-!
Shallow embedding of the quest-progress engine of the `system` habit tracker
(Go sources `internal/store/store.go` and `internal/gemini/gemini.go`).

Modelling conventions:
* Machine integers (`int` in Go) are modelled as `Int`; overflow is irrelevant
  at the magnitudes involved.
* Wall-clock instants are modelled by `Instant` (calendar-date index, hour,
  minute in the account's location); Go's `now.Add(-24 * time.Hour)` is
  `Instant.sub24h`, which moves to the previous calendar date at the same
  wall-clock time (fixed-offset time, no DST).
* Go renders a day key with `now.Format("2006-01-02")`, an injective encoding
  of the calendar date, and uses `""` as the "no last complete day" sentinel.
  Day keys are therefore modelled by the `Int` calendar-date index they denote,
  and `LastCompleteDay` by `Option Int` with `none` for `""`.
* Go maps (`map[string]bool`, `map[string]map[string]bool`) are modelled by
  association lists with first-match lookup; a lookup of an absent key yields
  the zero value `false`, exactly as in Go.  A `nil` map and an empty map read
  identically in Go, so the model does not distinguish them.
-/

/-- A wall-clock instant: calendar-date index (days since some epoch), hour of
day and minute, in the account's location. -/
structure Instant where
  day : Int
  hour : Int
  min : Int
deriving DecidableEq, Repr

/-- Go `now.Add(-24 * time.Hour)`: previous calendar date, same wall-clock
time (fixed offset, no DST). -/
def Instant.sub24h (t : Instant) : Instant :=
  { t with day := t.day - 1 }

/-- Function `UserData.TodayKey` (store.go:46-53): if the current hour is before the
reset hour, use the previous calendar day; the key is the calendar date of the
(possibly shifted) instant. -/
def todayKey (t : Instant) (resetHour : Int) : Int :=
  if t.hour < resetHour then (t.sub24h).day else t.day

/-- One quest (`Habit`, store.go:23-26). -/
structure Habit where
  id : String
  name : String
deriving DecidableEq, Repr

/-- A ledger row: quest-id to completed, Go `map[string]bool` with zero value
`false`. -/
abbrev Row := List (String × Bool)

/-- Go `row[habitID]`: first-match lookup, absent key reads `false`. -/
def rowGet : Row → String → Bool
  | [], _ => false
  | (k, v) :: rest, id => if k = id then v else rowGet rest id

/-- Go `row[habitID] = b`: replace the binding if present, else insert. -/
def rowSet : Row → String → Bool → Row
  | [], id, b => [(id, b)]
  | (k, v) :: rest, id, b =>
      if k = id then (k, b) :: rest else (k, v) :: rowSet rest id b

/-- The completion ledger: day key to row, Go `map[string]map[string]bool`. -/
abbrev Ledger := List (Int × Row)

/-- Go `ledger[day]` as an `Option` (distinguishing `nil`/absent row). -/
def ledRow? : Ledger → Int → Option Row
  | [], _ => none
  | (d, row) :: rest, day => if d = day then some row else ledRow? rest day

/-- Go `ledger[day][habitID]`: `false` when the row is absent. -/
def ledGet (led : Ledger) (day : Int) (id : String) : Bool :=
  match ledRow? led day with
  | none => false
  | some row => rowGet row id

/-- Go `ledger[day][habitID] = b`, creating the row if absent
(store.go:76-80). -/
def ledSet : Ledger → Int → String → Bool → Ledger
  | [], day, id, b => [(day, rowSet [] id b)]
  | (d, row) :: rest, day, id, b =>
      if d = day then (d, rowSet row id b) :: rest
      else (d, row) :: ledSet rest day id b

/-- Structure `UserData` (store.go:28-44).  `passwordHash` is the opaque bcrypt hash;
the mutex is a concurrency artefact with no sequential content. -/
structure UserData where
  username : String
  passwordHash : String
  habits : List Habit
  level : Int
  exp : Int
  STR : Int
  VIT : Int
  AGI : Int
  INT : Int
  currentStreak : Int
  longestStreak : Int
  lastCompleteDay : Option Int
  dailyCompletions : Ledger
  dayResetHour : Int
deriving DecidableEq, Repr

/-- Constant `EXPPerQuest` (store.go:16). -/
def EXPPerQuest : Int := 10

/-- Constant `EXPPerLevel` (store.go:17). -/
def EXPPerLevel : Int := 100

/-- The level-up loop of `ToggleToday` (store.go:84-87):
`for u.EXP >= u.Level*EXPPerLevel { u.Level++; leveledUp = true }`.
Returns the final level and whether the body ran at least once. -/
def levelUpLoop (e : Int) (l : Int) : Int × Bool :=
  if e ≥ l * EXPPerLevel then
    ((levelUpLoop e (l + 1)).1, true)
  else
    (l, false)
termination_by (e - l * EXPPerLevel + EXPPerLevel).toNat
decreasing_by
  simp only [EXPPerLevel] at *
  omega

/-- The de-level loop of `ToggleToday` (store.go:93-95):
`for u.Level > 1 && u.EXP < (u.Level-1)*EXPPerLevel { u.Level-- }`. -/
def levelDownLoop (e : Int) (l : Int) : Int :=
  if l > 1 ∧ e < (l - 1) * EXPPerLevel then
    levelDownLoop e (l - 1)
  else
    l
termination_by (l - 1).toNat
decreasing_by
  simp only [EXPPerLevel] at *
  omega

/-- Function `UserData.ToggleToday` (store.go:69-98).  Parameterised by the wall-clock
instant that `time.Now()` observes.  Returns the updated account and the two
flags `(gainedEXP, leveledUp)`. -/
def toggleToday (u : UserData) (now : Instant) (habitID : String) :
    UserData × Bool × Bool :=
  let today := todayKey now u.dayResetHour
  let was := ledGet u.dailyCompletions today habitID
  let dc := ledSet u.dailyCompletions today habitID (!was)
  let gainedEXP := !was
  if gainedEXP then
    let e := u.exp + EXPPerQuest
    let r := levelUpLoop e u.level
    ({ u with dailyCompletions := dc, exp := e, level := r.1 }, gainedEXP, r.2)
  else
    let e0 := u.exp - EXPPerQuest
    let e := if e0 < 0 then 0 else e0
    let l := levelDownLoop e u.level
    ({ u with dailyCompletions := dc, exp := e, level := l }, gainedEXP, false)

-- Basic ledger lemmas.

theorem rowGet_rowSet_self (row : Row) (id : String) (b : Bool) :
    rowGet (rowSet row id b) id = b := by
  induction row with
  | nil => simp [rowGet, rowSet]
  | cons kv rest ih =>
      obtain ⟨k, v⟩ := kv
      by_cases h : k = id <;> simp [rowGet, rowSet, h, ih]

theorem ledGet_ledSet_self (led : Ledger) (day : Int) (id : String) (b : Bool) :
    ledGet (ledSet led day id b) day id = b := by
  induction led with
  | nil => simp [ledGet, ledSet, ledRow?, rowGet_rowSet_self]
  | cons kv rest ih =>
      obtain ⟨d, row⟩ := kv
      by_cases h : d = day
      · simp [ledGet, ledSet, ledRow?, h, rowGet_rowSet_self]
      · simpa [ledGet, ledSet, ledRow?, h] using ih

-- Level-loop lemmas.

theorem levelUpLoop_stop {e l : Int} (h : ¬ e ≥ l * EXPPerLevel) :
    levelUpLoop e l = (l, false) := by
  rw [levelUpLoop]
  simp [h]

theorem levelUpLoop_step {e l : Int} (h : e ≥ l * EXPPerLevel) :
    levelUpLoop e l = ((levelUpLoop e (l + 1)).1, true) := by
  rw [levelUpLoop]
  simp [h]

theorem levelDownLoop_stop {e l : Int}
    (h : ¬ (l > 1 ∧ e < (l - 1) * EXPPerLevel)) :
    levelDownLoop e l = l := by
  rw [levelDownLoop]
  simp [h]

theorem levelDownLoop_step {e l : Int}
    (h : l > 1 ∧ e < (l - 1) * EXPPerLevel) :
    levelDownLoop e l = levelDownLoop e (l - 1) := by
  rw [levelDownLoop]
  simp [h]

/-- Function `UserData.UpdateStreak` (store.go:120-181), parameterised by the instant
observed by its two `time.Now()` calls (one call per entry in the source; both
within the same operation). -/
def updateStreak (u : UserData) (now : Instant) : UserData :=
  let today := todayKey now u.dayResetHour
  let allComplete :=
    if u.habits.isEmpty then false
    else
      match ledRow? u.dailyCompletions today with
      | none => false
      | some row => u.habits.all fun h => rowGet row h.id
  if !allComplete then
    if u.lastCompleteDay = some today then
      let cs := u.currentStreak - 1
      { u with lastCompleteDay := none,
               currentStreak := if cs < 0 then 0 else cs }
    else u
  else if u.lastCompleteDay = some today then u
  else
    let y1 := if now.hour < u.dayResetHour then now.sub24h else now
    let yesterdayKey := (y1.sub24h).day
    let cs :=
      if u.lastCompleteDay = some yesterdayKey then u.currentStreak + 1
      else if u.lastCompleteDay = none then 1
      else 1
    { u with currentStreak := cs,
             lastCompleteDay := some today,
             longestStreak :=
               if cs > u.longestStreak then cs else u.longestStreak }

/-- The §4.3 `refreshStreak` algorithm, written from the specification's
words: `allCompleteToday` is false with zero quests and otherwise requires a
true ledger entry for every current quest; the not-all-complete branch
decrements the streak floored at 0 and clears `lastCompleteDay` exactly when
today had been credited; the all-complete branch is a no-op when today is
already credited, otherwise continues from yesterday's key or resets to 1,
then credits today and raises the longest streak. -/
def refreshStreakSpec (u : UserData) (now : Instant) : UserData :=
  let today := todayKey now u.dayResetHour
  let allCompleteToday :=
    !u.habits.isEmpty &&
      u.habits.all fun h => ledGet u.dailyCompletions today h.id
  if allCompleteToday = false then
    if u.lastCompleteDay = some today then
      { u with currentStreak := max (u.currentStreak - 1) 0,
               lastCompleteDay := none }
    else u
  else if u.lastCompleteDay = some today then u
  else
    let yesterday := todayKey now u.dayResetHour - 1
    let cs :=
      if u.lastCompleteDay = some yesterday then u.currentStreak + 1 else 1
    { u with currentStreak := cs,
             lastCompleteDay := some today,
             longestStreak := max u.longestStreak cs }

/-- The decimal character list of a natural number (most significant digit
first), as produced by Go's `%d` verb: `Nat.digits` gives the little-endian
digit list, which is mapped to digit characters and reversed; `0` renders as
`"0"`. -/
def decChars (n : Nat) : List Char :=
  if n = 0 then ['0']
  else ((Nat.digits 10 n).map Nat.digitChar).reverse

/-- The decimal string of a natural number, Go `%d`. -/
def natDec (n : Nat) : String :=
  String.mk (decChars n)

/-- Function `UserData.AddHabit` (store.go:220-227), parameterised by the value
observed from `time.Now().UnixNano()` (always positive in practice, modelled
as `Nat`).  The id is `fmt.Sprintf("h_%d", nano)`. -/
def addHabit (u : UserData) (nano : Nat) (name : String) : UserData × Habit :=
  let id := "h_" ++ natDec nano
  let h : Habit := { id := id, name := name }
  ({ u with habits := u.habits ++ [h] }, h)

/-- Function `UserData.RemoveHabit` (store.go:229-237): remove by position, reporting
failure on an out-of-range index. -/
def removeHabit (u : UserData) (index : Int) : UserData × Bool :=
  if index < 0 ∨ index ≥ (u.habits.length : Int) then (u, false)
  else
    ({ u with habits :=
         u.habits.take index.toNat ++ u.habits.drop (index.toNat + 1) }, true)

/-- Function `UserData.UpdateDayResetHour` (store.go:210-218): the returned `Bool` is
`false` exactly when the Go function returns a validation error (the state is
then unchanged). -/
def updateDayResetHour (u : UserData) (hour : Int) : UserData × Bool :=
  if hour < 0 ∨ hour > 23 then (u, false)
  else ({ u with dayResetHour := hour }, true)

/-- Constant `DefaultLevel` (store.go:19). -/
def DefaultLevel : Int := 1

/-- Constant `DefaultResetHour` (store.go:20). -/
def DefaultResetHour : Int := 4

/-- The fresh account built by `CreateUser` (store.go:352-365); the bcrypt
hash is abstracted as the `hash` argument.  Fields not listed in the Go
literal (streak counters, EXP-independent of `EXP: 0` which is listed,
`LastCompleteDay`) take Go's zero values. -/
def newUserData (username hash : String) : UserData :=
  { username := username
    passwordHash := hash
    habits := []
    level := DefaultLevel
    exp := 0
    STR := 10 + DefaultLevel
    VIT := 10 + DefaultLevel
    AGI := 10 + DefaultLevel
    INT := 10 + DefaultLevel
    currentStreak := 0
    longestStreak := 0
    lastCompleteDay := none
    dailyCompletions := []
    dayResetHour := DefaultResetHour }

/-- One mutating operation on a loaded account, as issued by the session
layer: completion toggle, streak refresh, quest add/remove, settings
update. -/
inductive AccountOp where
  | toggle (now : Instant) (habitID : String)
  | refresh (now : Instant)
  | addQuest (nano : Nat) (name : String)
  | removeQuest (index : Int)
  | setResetHour (hour : Int)

/-- Apply one operation to the in-memory account state. -/
def applyOp (u : UserData) : AccountOp → UserData
  | .toggle now id => (toggleToday u now id).1
  | .refresh now => updateStreak u now
  | .addQuest t n => (addHabit u t n).1
  | .removeQuest i => (removeHabit u i).1
  | .setResetHour h => (updateDayResetHour u h).1

/-- The persisted JSON record of one account (store.go:28-44, §6).  Go
marshals every field of `UserData` unconditionally (no `omitempty`), so the
stored record carries exactly the in-memory field values. -/
structure StoredRecord where
  username : String
  passwordHash : String
  habits : List Habit
  level : Int
  exp : Int
  STR : Int
  VIT : Int
  AGI : Int
  INT : Int
  currentStreak : Int
  longestStreak : Int
  lastCompleteDay : Option Int
  dailyCompletions : Ledger
  dayResetHour : Int
deriving DecidableEq, Repr

/-- Function `SaveUser` (store.go:372-384): `json.MarshalIndent` writes every field's
current value. -/
def saveUser (u : UserData) : StoredRecord :=
  { username := u.username
    passwordHash := u.passwordHash
    habits := u.habits
    level := u.level
    exp := u.exp
    STR := u.STR
    VIT := u.VIT
    AGI := u.AGI
    INT := u.INT
    currentStreak := u.currentStreak
    longestStreak := u.longestStreak
    lastCompleteDay := u.lastCompleteDay
    dailyCompletions := u.dailyCompletions
    dayResetHour := u.dayResetHour }

/-- Decoding (`json.Unmarshal`) of a stored record (store.go:283-285): the in-memory
state carries exactly the stored field values (a `nil` ledger and the empty
map it is replaced with at store.go:287-289 are indistinguishable in this
model). -/
def ofRecord (r : StoredRecord) : UserData :=
  { username := r.username
    passwordHash := r.passwordHash
    habits := r.habits
    level := r.level
    exp := r.exp
    STR := r.STR
    VIT := r.VIT
    AGI := r.AGI
    INT := r.INT
    currentStreak := r.currentStreak
    longestStreak := r.longestStreak
    lastCompleteDay := r.lastCompleteDay
    dailyCompletions := r.dailyCompletions
    dayResetHour := r.dayResetHour }

/-- store.go:290-292: a level below 1 becomes `DefaultLevel`. -/
def fixLevel (u : UserData) : UserData :=
  if u.level < 1 then { u with level := DefaultLevel } else u

/-- store.go:293-295: an out-of-range reset hour becomes
`DefaultResetHour`. -/
def fixResetHour (u : UserData) : UserData :=
  if u.dayResetHour < 0 ∨ u.dayResetHour > 23 then
    { u with dayResetHour := DefaultResetHour }
  else u

/-- store.go:298-300: a strength equal to 0 becomes `baseStats + level`
(`baseStats = 10`). -/
def fixSTR (u : UserData) : UserData :=
  if u.STR = 0 then { u with STR := 10 + u.level } else u

/-- store.go:301-303. -/
def fixVIT (u : UserData) : UserData :=
  if u.VIT = 0 then { u with VIT := 10 + u.level } else u

/-- store.go:304-306. -/
def fixAGI (u : UserData) : UserData :=
  if u.AGI = 0 then { u with AGI := 10 + u.level } else u

/-- store.go:307-309. -/
def fixINT (u : UserData) : UserData :=
  if u.INT = 0 then { u with INT := 10 + u.level } else u

/-- Function `LoadUser` (store.go:277-311): unmarshal the record, then apply the
schema-upgrade fixups in source order (level, reset hour, then the four
stats, each stat check seeing the already-fixed level). -/
def loadUser (r : StoredRecord) : UserData :=
  fixINT (fixAGI (fixVIT (fixSTR (fixResetHour (fixLevel (ofRecord r))))))

/-- Structure `StatResponse` (gemini.go:28-33): a four-way stat split. -/
structure StatResponse where
  STR : Int
  VIT : Int
  AGI : Int
  INT : Int
deriving DecidableEq, Repr

/-- Go `rand.Intn(n)` for `n > 0`: some value in `[0, n)`, modelled by
reducing an arbitrary seed modulo `n`. -/
def intn (n : Int) (r : Nat) : Int :=
  ((r % n.toNat : Nat) : Int)

/-- Function `randomFallback` (gemini.go:167-189): random allocation of `points`
across the four stats, the remainder going to INT.  The three `rand.Intn`
draws are modelled by the seeds `r1 r2 r3`. -/
def randomFallback (points : Int) (r1 r2 r3 : Nat) : StatResponse :=
  let str := intn (points + 1) r1
  let rem1 := points - str
  let vit := if rem1 > 0 then intn (rem1 + 1) r2 else 0
  let rem2 := rem1 - vit
  let agi := if rem2 > 0 then intn (rem2 + 1) r3 else 0
  let rem3 := rem2 - agi
  { STR := str, VIT := vit, AGI := agi, INT := rem3 }

/-- Function `normalizeStats` (gemini.go:192-224).  The proportional rescale
`int(float64(x) * scale)` runs in `float64`; its truncated results are
modelled by the oracle-supplied function `scaled`, since only the
post-adjustment total is provable independently of rounding.  All remaining
arithmetic is exact integer arithmetic as in the source. -/
def normalizeStats (stats : StatResponse) (targetPoints : Int)
    (scaled : Int → Int) (r1 r2 r3 : Nat) : StatResponse :=
  let total := stats.STR + stats.VIT + stats.AGI + stats.INT
  if total = 0 then randomFallback targetPoints r1 r2 r3
  else
    let result : StatResponse :=
      { STR := scaled stats.STR, VIT := scaled stats.VIT,
        AGI := scaled stats.AGI, INT := scaled stats.INT }
    let diff :=
      targetPoints - (result.STR + result.VIT + result.AGI + result.INT)
    if diff > 0 then { result with STR := result.STR + diff }
    else if diff < 0 then
      if result.STR ≥ -diff then { result with STR := result.STR + diff }
      else if result.VIT ≥ -diff then { result with VIT := result.VIT + diff }
      else if result.AGI ≥ -diff then { result with AGI := result.AGI + diff }
      else { result with INT := result.INT + diff }
    else result

/-- The observable outcome of the Gemini oracle call in `GetLevelUpStats`
(gemini.go:100-154): every failure path (marshal error, request error,
transport error, read error, non-200 status, unmarshal error, empty
candidates, no JSON object found, stats-JSON parse error) takes the
`failure` constructor; a successfully parsed `StatResponse` takes
`parsed`. -/
inductive OracleOutcome where
  | failure
  | parsed (stats : StatResponse)

/-- Function `GetLevelUpStats` (gemini.go:63-164) after the oracle outcome is fixed:
on failure, `randomFallback`; on a parsed response whose total is not the
4-point budget, `normalizeStats`; otherwise the parsed response verbatim.
`scaled`/`r1 r2 r3` model the float rescale and the random draws. -/
def getLevelUpStats (o : OracleOutcome) (scaled : Int → Int)
    (r1 r2 r3 : Nat) : StatResponse :=
  let pointsToAllocate : Int := 4
  match o with
  | .failure => randomFallback pointsToAllocate r1 r2 r3
  | .parsed stats =>
      if stats.STR + stats.VIT + stats.AGI + stats.INT ≠ pointsToAllocate then
        normalizeStats stats pointsToAllocate scaled r1 r2 r3
      else stats

/-- Function `ApplyLevelUpStats` (store.go:249-256): the split is added to the
account's stats. -/
def applyLevelUpStats (u : UserData) (s : StatResponse) : UserData :=
  { u with STR := u.STR + s.STR, VIT := u.VIT + s.VIT,
           AGI := u.AGI + s.AGI, INT := u.INT + s.INT }

/-- The progression invariant of §3: level at least 1, experience
non-negative, experience strictly below the current level's threshold, and
(above level 1) at least the previous level's threshold. -/
def ProgInv (u : UserData) : Prop :=
  1 ≤ u.level ∧ 0 ≤ u.exp ∧ u.exp < u.level * EXPPerLevel ∧
    (1 < u.level → (u.level - 1) * EXPPerLevel ≤ u.exp)

instance : DecidablePred ProgInv := fun u => by
  unfold ProgInv
  infer_instance

/-- The streak invariant of §3/§8: `longestStreak ≥ currentStreak ≥ 0`. -/
def StreakInv (u : UserData) : Prop :=
  0 ≤ u.currentStreak ∧ u.currentStreak ≤ u.longestStreak

instance : DecidablePred StreakInv := fun u => by
  unfold StreakInv
  infer_instance

-- Exit and monotonicity facts about the two level loops.

theorem levelUpLoop_exit (e l : Int) : e < (levelUpLoop e l).1 * EXPPerLevel := by
  by_cases h : e ≥ l * EXPPerLevel
  · rw [levelUpLoop_step h]
    exact levelUpLoop_exit e (l + 1)
  · rw [levelUpLoop_stop h]
    show e < l * EXPPerLevel
    omega
termination_by (e - l * EXPPerLevel + EXPPerLevel).toNat
decreasing_by
  simp only [EXPPerLevel] at *
  omega

theorem levelUpLoop_le (e l : Int) : l ≤ (levelUpLoop e l).1 := by
  by_cases h : e ≥ l * EXPPerLevel
  · rw [levelUpLoop_step h]
    have := levelUpLoop_le e (l + 1)
    omega
  · rw [levelUpLoop_stop h]
termination_by (e - l * EXPPerLevel + EXPPerLevel).toNat
decreasing_by
  simp only [EXPPerLevel] at *
  omega

theorem levelUpLoop_entered (e l : Int) (h : l < (levelUpLoop e l).1) :
    ((levelUpLoop e l).1 - 1) * EXPPerLevel ≤ e := by
  by_cases hge : e ≥ l * EXPPerLevel
  · rw [levelUpLoop_step hge] at h ⊢
    by_cases h2 : l + 1 < (levelUpLoop e (l + 1)).1
    · exact levelUpLoop_entered e (l + 1) h2
    · have := levelUpLoop_le e (l + 1)
      have heq : (levelUpLoop e (l + 1)).1 = l + 1 := by omega
      rw [heq]
      simpa using hge
  · rw [levelUpLoop_stop hge] at h
    omega
termination_by (e - l * EXPPerLevel + EXPPerLevel).toNat
decreasing_by
  simp only [EXPPerLevel] at *
  omega

theorem levelUpLoop_flag (e l : Int) :
    (levelUpLoop e l).2 = true ↔ l < (levelUpLoop e l).1 := by
  by_cases h : e ≥ l * EXPPerLevel
  · rw [levelUpLoop_step h]
    have h2 := levelUpLoop_le e (l + 1)
    show true = true ↔ l < (levelUpLoop e (l + 1)).1
    constructor
    · intro _
      omega
    · intro _
      rfl
  · rw [levelUpLoop_stop h]
    simp

theorem levelDownLoop_exit (e l : Int) :
    ¬ (levelDownLoop e l > 1 ∧ e < (levelDownLoop e l - 1) * EXPPerLevel) := by
  by_cases h : l > 1 ∧ e < (l - 1) * EXPPerLevel
  · rw [levelDownLoop_step h]
    exact levelDownLoop_exit e (l - 1)
  · rw [levelDownLoop_stop h]
    exact h
termination_by (l - 1).toNat
decreasing_by
  simp only [EXPPerLevel] at *
  omega

theorem levelDownLoop_le (e l : Int) : levelDownLoop e l ≤ l := by
  by_cases h : l > 1 ∧ e < (l - 1) * EXPPerLevel
  · rw [levelDownLoop_step h]
    have := levelDownLoop_le e (l - 1)
    omega
  · rw [levelDownLoop_stop h]
termination_by (l - 1).toNat
decreasing_by
  simp only [EXPPerLevel] at *
  omega

theorem levelDownLoop_ge_one (e l : Int) (hl : 1 ≤ l) :
    1 ≤ levelDownLoop e l := by
  by_cases h : l > 1 ∧ e < (l - 1) * EXPPerLevel
  · rw [levelDownLoop_step h]
    exact levelDownLoop_ge_one e (l - 1) (by omega)
  · rw [levelDownLoop_stop h]
    exact hl
termination_by (l - 1).toNat
decreasing_by
  simp only [EXPPerLevel] at *
  omega

theorem levelDownLoop_upper (e l : Int) :
    levelDownLoop e l = l ∨ e < levelDownLoop e l * EXPPerLevel := by
  by_cases h : l > 1 ∧ e < (l - 1) * EXPPerLevel
  · rw [levelDownLoop_step h]
    rcases levelDownLoop_upper e (l - 1) with heq | hlt
    · right
      rw [heq]
      omega
    · right
      exact hlt
  · rw [levelDownLoop_stop h]
    left
    rfl
termination_by (l - 1).toNat
decreasing_by
  simp only [EXPPerLevel] at *
  omega

-- Branch equations for `toggleToday`.

theorem toggleToday_gain {u : UserData} {now : Instant} {habitID : String}
    (h : ledGet u.dailyCompletions (todayKey now u.dayResetHour) habitID
      = false) :
    toggleToday u now habitID =
      ({ u with
           dailyCompletions :=
             ledSet u.dailyCompletions (todayKey now u.dayResetHour)
               habitID true,
           exp := u.exp + EXPPerQuest,
           level := (levelUpLoop (u.exp + EXPPerQuest) u.level).1 },
        true, (levelUpLoop (u.exp + EXPPerQuest) u.level).2) := by
  simp [toggleToday, h]

theorem toggleToday_loss {u : UserData} {now : Instant} {habitID : String}
    (h : ledGet u.dailyCompletions (todayKey now u.dayResetHour) habitID
      = true) :
    toggleToday u now habitID =
      ({ u with
           dailyCompletions :=
             ledSet u.dailyCompletions (todayKey now u.dayResetHour)
               habitID false,
           exp :=
             if u.exp - EXPPerQuest < 0 then 0 else u.exp - EXPPerQuest,
           level :=
             levelDownLoop
               (if u.exp - EXPPerQuest < 0 then 0 else u.exp - EXPPerQuest)
               u.level },
        false, false) := by
  simp [toggleToday, h]

-- Round-trip arithmetic for the level loops under the progression invariant.

theorem levelUpLoop_one_step {e l : Int} (h2 : e < l * EXPPerLevel) :
    (levelUpLoop (e + EXPPerQuest) l).1 =
      if e + EXPPerQuest ≥ l * EXPPerLevel then l + 1 else l := by
  by_cases h : e + EXPPerQuest ≥ l * EXPPerLevel
  · rw [levelUpLoop_step h, if_pos h]
    have hstop : ¬ e + EXPPerQuest ≥ (l + 1) * EXPPerLevel := by
      simp only [EXPPerQuest, EXPPerLevel] at *
      omega
    rw [levelUpLoop_stop hstop]
  · rw [levelUpLoop_stop h, if_neg h]

theorem levelDownLoop_after_up {e l : Int} (h1 : 1 ≤ l)
    (h2 : e < l * EXPPerLevel)
    (h3 : 1 < l → (l - 1) * EXPPerLevel ≤ e) :
    levelDownLoop e ((levelUpLoop (e + EXPPerQuest) l).1) = l := by
  rw [levelUpLoop_one_step h2]
  by_cases h : e + EXPPerQuest ≥ l * EXPPerLevel
  · rw [if_pos h]
    have hstep : l + 1 > 1 ∧ e < (l + 1 - 1) * EXPPerLevel := by
      constructor
      · omega
      · simpa using h2
    rw [levelDownLoop_step hstep]
    have : l + 1 - 1 = l := by omega
    rw [this]
    apply levelDownLoop_stop
    intro hc
    exact absurd (h3 hc.1) (by omega)
  · rw [if_neg h]
    apply levelDownLoop_stop
    intro hc
    exact absurd (h3 hc.1) (by omega)

theorem levelUpLoop_after_down {e l : Int}
    (h2 : e < l * EXPPerLevel)
    (h3 : 1 < l → (l - 1) * EXPPerLevel ≤ e) :
    (levelUpLoop (e - EXPPerQuest + EXPPerQuest)
      (levelDownLoop (e - EXPPerQuest) l)).1 = l := by
  have hee : e - EXPPerQuest + EXPPerQuest = e := by omega
  rw [hee]
  by_cases h : l > 1 ∧ e - EXPPerQuest < (l - 1) * EXPPerLevel
  · rw [levelDownLoop_step h]
    have hstop : ¬ (l - 1 > 1 ∧ e - EXPPerQuest < (l - 1 - 1) * EXPPerLevel) := by
      have := h3 h.1
      simp only [EXPPerQuest, EXPPerLevel] at *
      omega
    rw [levelDownLoop_stop hstop]
    have hup : e ≥ (l - 1) * EXPPerLevel := h3 h.1
    rw [levelUpLoop_step hup]
    have heq : l - 1 + 1 = l := by omega
    rw [heq, levelUpLoop_stop (by omega)]
  · rw [levelDownLoop_stop h, levelUpLoop_stop (by omega)]

/-- A small concrete account used by the concrete evaluations below. -/
def mkAccount (lvl e : Int) (dc : Ledger) : UserData :=
  { username := "u"
    passwordHash := "p"
    habits := []
    level := lvl
    exp := e
    STR := 11
    VIT := 11
    AGI := 11
    INT := 11
    currentStreak := 0
    longestStreak := 0
    lastCompleteDay := none
    dailyCompletions := dc
    dayResetHour := 4 }

/-- A fixed daytime instant (noon on date 0) for concrete evaluations. -/
def noonInstant : Instant := { day := 0, hour := 12, min := 0 }

/-- Claim C1 (amended).  For every account state satisfying the progression
invariant and in which either the quest is not yet completed today or
experience is at least one quest reward, calling `ToggleToday` twice in
immediate succession within the same logical day restores experience, level
and that quest's ledger boolean for today to exactly their pre-call
values. -/
theorem toggleToday_double_restores (u : UserData) (now : Instant)
    (q : String) (hInv : ProgInv u)
    (hdir :
      ledGet u.dailyCompletions (todayKey now u.dayResetHour) q = false ∨
        EXPPerQuest ≤ u.exp) :
    ((toggleToday (toggleToday u now q).1 now q).1).exp = u.exp ∧
      ((toggleToday (toggleToday u now q).1 now q).1).level = u.level ∧
      ledGet ((toggleToday (toggleToday u now q).1 now q).1).dailyCompletions
          (todayKey now u.dayResetHour) q =
        ledGet u.dailyCompletions (todayKey now u.dayResetHour) q := by
  obtain ⟨hl1, he0, he2, he3⟩ := hInv
  cases hw : ledGet u.dailyCompletions (todayKey now u.dayResetHour) q with
  | false =>
      rw [toggleToday_gain hw]
      dsimp only
      have hw2 : ledGet
          (ledSet u.dailyCompletions (todayKey now u.dayResetHour) q true)
          (todayKey now u.dayResetHour) q = true :=
        ledGet_ledSet_self _ _ _ _
      rw [toggleToday_loss hw2]
      dsimp only
      have hee : u.exp + EXPPerQuest - EXPPerQuest = u.exp := by omega
      have hiff : ¬ u.exp + EXPPerQuest - EXPPerQuest < 0 := by
        simp only [EXPPerQuest]
        omega
      rw [if_neg hiff, hee]
      refine ⟨rfl, ?_, ?_⟩
      · exact levelDownLoop_after_up hl1 he2 he3
      · rw [ledGet_ledSet_self]
  | true =>
      have h10 : EXPPerQuest ≤ u.exp := by
        rcases hdir with hcontra | h10
        · rw [hw] at hcontra
          cases hcontra
        · exact h10
      rw [toggleToday_loss hw]
      dsimp only
      have hiff : ¬ u.exp - EXPPerQuest < 0 := by omega
      rw [if_neg hiff]
      have hw2 : ledGet
          (ledSet u.dailyCompletions (todayKey now u.dayResetHour) q false)
          (todayKey now u.dayResetHour) q = false :=
        ledGet_ledSet_self _ _ _ _
      rw [toggleToday_gain hw2]
      dsimp only
      refine ⟨by omega, ?_, ?_⟩
      · exact levelUpLoop_after_down he2 he3
      · rw [ledGet_ledSet_self]

/-- Witness for `toggleToday_double_restores` at a concrete input: account at
level 1 with 30 EXP, quest `"q"` not yet completed today. -/
theorem toggleToday_double_restores_witness :
    ProgInv (mkAccount 1 30 []) ∧
      (ledGet (mkAccount 1 30 []).dailyCompletions
          (todayKey noonInstant (mkAccount 1 30 []).dayResetHour) "q" = false ∨
        EXPPerQuest ≤ (mkAccount 1 30 []).exp) ∧
      ((toggleToday (toggleToday (mkAccount 1 30 []) noonInstant "q").1
          noonInstant "q").1).exp = (mkAccount 1 30 []).exp := by
  refine ⟨by decide, Or.inl (by decide), ?_⟩
  exact (toggleToday_double_restores (mkAccount 1 30 []) noonInstant "q"
    (by decide) (Or.inl (by decide))).1

/-- Single-call preservation of the progression invariant by
`ToggleToday`. -/
theorem toggleToday_preserves_progInv (u : UserData) (now : Instant)
    (q : String) (h : ProgInv u) : ProgInv (toggleToday u now q).1 := by
  obtain ⟨hl1, he0, he2, he3⟩ := h
  cases hw : ledGet u.dailyCompletions (todayKey now u.dayResetHour) q with
  | false =>
      rw [toggleToday_gain hw]
      refine ⟨le_trans hl1 (levelUpLoop_le _ _), ?_, levelUpLoop_exit _ _, ?_⟩
      · simp only [EXPPerQuest]
        omega
      · intro hgt
        by_cases hup : u.level < (levelUpLoop (u.exp + EXPPerQuest) u.level).1
        · exact levelUpLoop_entered _ _ hup
        · have hle := levelUpLoop_le (u.exp + EXPPerQuest) u.level
          have heq : (levelUpLoop (u.exp + EXPPerQuest) u.level).1 = u.level := by
            omega
          rw [heq] at hgt ⊢
          have := he3 hgt
          simp only [EXPPerQuest] at *
          omega
  | true =>
      rw [toggleToday_loss hw]
      simp only [ProgInv]
      have he0' : 0 ≤ if u.exp - EXPPerQuest < 0 then 0
          else u.exp - EXPPerQuest := by
        split <;> omega
      have heup : (if u.exp - EXPPerQuest < 0 then 0
          else u.exp - EXPPerQuest) < u.level * EXPPerLevel := by
        have : (if u.exp - EXPPerQuest < 0 then 0
            else u.exp - EXPPerQuest) ≤ u.exp := by
          simp only [EXPPerQuest]
          split <;> omega
        omega
      refine ⟨levelDownLoop_ge_one _ _ hl1, he0', ?_, ?_⟩
      · rcases levelDownLoop_upper
          (if u.exp - EXPPerQuest < 0 then 0 else u.exp - EXPPerQuest)
          u.level with heq | hlt
        · rw [heq]
          exact heup
        · exact hlt
      · intro hgt
        have hexit := levelDownLoop_exit
          (if u.exp - EXPPerQuest < 0 then 0 else u.exp - EXPPerQuest)
          u.level
        omega

/-- A completion gain never lowers the level. -/
theorem toggleToday_level_mono (u : UserData) (now : Instant) (q : String)
    (hw : ledGet u.dailyCompletions (todayKey now u.dayResetHour) q = false) :
    u.level ≤ (toggleToday u now q).1.level := by
  rw [toggleToday_gain hw]
  exact levelUpLoop_le _ _

/-- A sequence of toggles applied in order, each call observing its own
wall-clock instant (so a sequence may span several logical days). -/
def applyToggles (u : UserData) : List (Instant × String) → UserData
  | [] => u
  | (now, q) :: rest => applyToggles (toggleToday u now q).1 rest

/-- The sequence contains no uncompletions: each toggle, at its own instant,
finds its quest unchecked in the current state's ledger for that call's
logical day. -/
def CompletionsOnly (u : UserData) : List (Instant × String) → Prop
  | [] => True
  | (now, q) :: rest =>
      ledGet u.dailyCompletions (todayKey now u.dayResetHour) q = false ∧
        CompletionsOnly (toggleToday u now q).1 rest

/-- Claim C2: starting from any state satisfying the progression invariant
(level ≥ 1, experience ≥ 0, experience < level·100 and, above level 1,
experience ≥ (level−1)·100), `ToggleToday` re-establishes the invariant —
in particular `experience < level * 100` and, if `level > 1`,
`experience ≥ (level-1) * 100` — and for any sequence of completions (no
uncompletions), each at its own instant and possibly spanning several
logical days, the level is non-decreasing. -/
theorem toggleToday_progression_post :
    (∀ (u : UserData) (now : Instant) (q : String),
        ProgInv u → ProgInv (toggleToday u now q).1) ∧
      (∀ (u : UserData) (steps : List (Instant × String)),
        CompletionsOnly u steps → u.level ≤ (applyToggles u steps).level) := by
  constructor
  · exact toggleToday_preserves_progInv
  · intro u steps
    induction steps generalizing u with
    | nil =>
        intro _
        exact le_refl _
    | cons p rest ih =>
        obtain ⟨now, q⟩ := p
        intro hco
        obtain ⟨hw, htail⟩ := hco
        calc u.level ≤ (toggleToday u now q).1.level :=
              toggleToday_level_mono u now q hw
          _ ≤ (applyToggles (toggleToday u now q).1 rest).level := ih _ htail

/-- Witness for `toggleToday_progression_post` at a concrete input: a fresh
level-1 account, completions of quest `"q"` on two consecutive logical
days. -/
theorem toggleToday_progression_post_witness :
    ProgInv (mkAccount 1 0 []) ∧
      ProgInv ((toggleToday (mkAccount 1 0 []) noonInstant "q").1) ∧
      (mkAccount 1 0 []).level ≤
        (applyToggles (mkAccount 1 0 [])
          [(noonInstant, "q"), ({ day := 1, hour := 12, min := 0 }, "q")]).level := by
  refine ⟨by decide, ?_, ?_⟩
  · exact toggleToday_progression_post.1 (mkAccount 1 0 []) noonInstant "q"
      (by decide)
  · refine toggleToday_progression_post.2 (mkAccount 1 0 [])
      [(noonInstant, "q"), ({ day := 1, hour := 12, min := 0 }, "q")]
      ⟨by decide, ?_, trivial⟩
    rw [toggleToday_gain (by decide)]
    decide

theorem all_false_of_ne_nil {l : List Habit} (h : ¬ l.isEmpty = true) :
    (l.all fun _ => false) = false := by
  cases l with
  | nil => simp at h
  | cons x xs => simp

/-- The inline all-complete computation of `UpdateStreak` (store.go:126-138)
agrees with §4.3's `allCompleteToday`. -/
theorem allComplete_eq (u : UserData) (today : Int) :
    (if u.habits.isEmpty then false
     else
       match ledRow? u.dailyCompletions today with
       | none => false
       | some row => u.habits.all fun h => rowGet row h.id) =
      (!u.habits.isEmpty &&
        u.habits.all fun h => ledGet u.dailyCompletions today h.id) := by
  by_cases hemp : u.habits.isEmpty
  · simp [hemp]
  · rw [if_neg hemp]
    cases hrow : ledRow? u.dailyCompletions today with
    | none =>
        simp only [ledGet, hrow]
        rw [all_false_of_ne_nil hemp]
        simp [hemp]
    | some row =>
        simp only [ledGet, hrow]
        simp [hemp]

/-- Function `UpdateStreak` agrees with the specification-side streak algorithm
`refreshStreakSpec` on every state (shared helper). -/
theorem updateStreak_eq_refreshStreakSpec (u : UserData) (now : Instant) :
    updateStreak u now = refreshStreakSpec u now := by
  unfold updateStreak refreshStreakSpec
  simp only [allComplete_eq]
  have hyk : ((if now.hour < u.dayResetHour then now.sub24h else now).sub24h).day
      = todayKey now u.dayResetHour - 1 := by
    unfold todayKey Instant.sub24h
    split <;> simp
  rw [hyk]
  simp only [Bool.not_eq_true']
  by_cases hA : (!u.habits.isEmpty &&
      u.habits.all fun h =>
        ledGet u.dailyCompletions (todayKey now u.dayResetHour) h.id) = false
  · rw [if_pos hA, if_pos hA]
    by_cases hlast :
        u.lastCompleteDay = some (todayKey now u.dayResetHour)
    · rw [if_pos hlast, if_pos hlast]
      have hm : (if u.currentStreak - 1 < 0 then (0 : Int)
          else u.currentStreak - 1) = max (u.currentStreak - 1) 0 := by
        rw [Int.max_def]
        split <;> omega
      rw [hm]
    · rw [if_neg hlast, if_neg hlast]
  · rw [if_neg hA, if_neg hA]
    by_cases hlast :
        u.lastCompleteDay = some (todayKey now u.dayResetHour)
    · rw [if_pos hlast, if_pos hlast]
    · rw [if_neg hlast, if_neg hlast]
      by_cases hy :
          u.lastCompleteDay = some (todayKey now u.dayResetHour - 1)
      · rw [if_pos hy, if_pos hy]
        have hm : (if u.currentStreak + 1 > u.longestStreak
            then u.currentStreak + 1 else u.longestStreak) =
            max u.longestStreak (u.currentStreak + 1) := by
          rw [Int.max_def]
          split <;> omega
        rw [hm]
      · rw [if_neg hy, if_neg hy]
        have hone : (if u.lastCompleteDay = none then (1 : Int) else 1)
            = 1 := by
          split <;> rfl
        rw [hone]
        have hm : (if (1 : Int) > u.longestStreak then 1
            else u.longestStreak) = max u.longestStreak 1 := by
          rw [Int.max_def]
          split <;> omega
        rw [hm]

/-- Claim C4: `UpdateStreak` implements the paragraph-4.3 `refreshStreak`
algorithm exactly: when not all current quests are completed today it
decrements the streak (floored at 0) and clears `lastCompleteDay` precisely
when today had been credited, otherwise changing nothing; when all quests are
complete it is a no-op if today is credited, continues from yesterday's key
or resets to 1, then credits today and raises the longest streak to the
maximum. -/
theorem updateStreak_follows_spec (u : UserData) (now : Instant) :
    updateStreak u now = refreshStreakSpec u now :=
  updateStreak_eq_refreshStreakSpec u now

/-- Claim C5 (amended).  Of the two booleans returned by `ToggleToday`, for
any state with non-negative experience the first is true exactly when the
call increased experience (the quest transitioned to completed) — not merely
when experience changed, since an uncompletion also changes it — and the
second is true exactly when the level was incremented at least once. -/
theorem toggleToday_signals (u : UserData) (now : Instant) (q : String)
    (he : 0 ≤ u.exp) :
    ((toggleToday u now q).2.1 = true ↔ u.exp < (toggleToday u now q).1.exp) ∧
      ((toggleToday u now q).2.2 = true ↔
        u.level < (toggleToday u now q).1.level) := by
  cases hw : ledGet u.dailyCompletions (todayKey now u.dayResetHour) q with
  | false =>
      rw [toggleToday_gain hw]
      dsimp only
      constructor
      · constructor
        · intro _
          simp only [EXPPerQuest]
          omega
        · intro _
          rfl
      · exact levelUpLoop_flag _ _
  | true =>
      rw [toggleToday_loss hw]
      dsimp only
      have hle := levelDownLoop_le
        (if u.exp - EXPPerQuest < 0 then 0 else u.exp - EXPPerQuest) u.level
      constructor
      · constructor
        · intro hfalse
          cases hfalse
        · intro hlt
          exfalso
          by_cases hneg : u.exp - EXPPerQuest < 0
          · rw [if_pos hneg] at hlt
            omega
          · rw [if_neg hneg] at hlt
            simp only [EXPPerQuest] at hlt
            omega
      · constructor
        · intro hfalse
          cases hfalse
        · intro hlt
          exact absurd hlt (not_lt.mpr hle)

/-- Witness for `toggleToday_signals` at a concrete input. -/
theorem toggleToday_signals_witness :
    0 ≤ (mkAccount 1 0 []).exp ∧
      ((toggleToday (mkAccount 1 0 []) noonInstant "q").2.1 = true ↔
        (mkAccount 1 0 []).exp <
          (toggleToday (mkAccount 1 0 []) noonInstant "q").1.exp) := by
  exact ⟨by decide,
    (toggleToday_signals (mkAccount 1 0 []) noonInstant "q" (by decide)).1⟩

/-- Claim C5 fails as frozen: on an account with 10 EXP whose quest `"q"` is
already completed today, the toggle changes experience from 10 to 0 yet
returns `false` as its first signal. -/
theorem toggleToday_signals_counterexample :
    (toggleToday (mkAccount 1 10 [(0, [("q", true)])]) noonInstant "q").2.1
        = false ∧
      (toggleToday (mkAccount 1 10 [(0, [("q", true)])]) noonInstant "q").1.exp
        ≠ (mkAccount 1 10 [(0, [("q", true)])]).exp := by
  have hw : ledGet (mkAccount 1 10 [(0, [("q", true)])]).dailyCompletions
      (todayKey noonInstant
        (mkAccount 1 10 [(0, [("q", true)])]).dayResetHour) "q" = true := by
    decide
  rw [toggleToday_loss hw]
  dsimp only
  exact ⟨rfl, by decide⟩

/-- Claim C10: `ToggleToday` performs no validation of its quest-id argument
against the quest list: its result is oblivious to the `habits` field (so a
removed or never-existing id behaves identically), it flips today's ledger
boolean for that id (creating the row if absent), and it applies the
corresponding experience gain or floored loss. -/
theorem toggleToday_no_validation (u : UserData) (now : Instant) (q : String)
    (hs : List Habit) :
    toggleToday { u with habits := hs } now q =
        ({ (toggleToday u now q).1 with habits := hs },
          (toggleToday u now q).2) ∧
      ledGet (toggleToday u now q).1.dailyCompletions
          (todayKey now u.dayResetHour) q =
        !(ledGet u.dailyCompletions (todayKey now u.dayResetHour) q) ∧
      (toggleToday u now q).1.exp =
        (if ledGet u.dailyCompletions (todayKey now u.dayResetHour) q then
          (if u.exp - EXPPerQuest < 0 then 0 else u.exp - EXPPerQuest)
         else u.exp + EXPPerQuest) := by
  cases hw : ledGet u.dailyCompletions (todayKey now u.dayResetHour) q with
  | false =>
      have hw' : ledGet ({ u with habits := hs } : UserData).dailyCompletions
          (todayKey now ({ u with habits := hs } : UserData).dayResetHour) q
          = false := hw
      rw [toggleToday_gain hw, toggleToday_gain hw']
      refine ⟨rfl, ?_, ?_⟩
      · dsimp only
        rw [ledGet_ledSet_self]
        decide
      · simp
  | true =>
      have hw' : ledGet ({ u with habits := hs } : UserData).dailyCompletions
          (todayKey now ({ u with habits := hs } : UserData).dayResetHour) q
          = true := hw
      rw [toggleToday_loss hw, toggleToday_loss hw']
      refine ⟨rfl, ?_, ?_⟩
      · dsimp only
        rw [ledGet_ledSet_self]
        decide
      · simp

/-- Claim C1 fails as frozen: on an account with `level = 2`, `experience = 0`
(which violates the progression invariant but is a legal starting state of
the quantifier "for every starting account state"), toggling quest `"q"`
twice leaves the level at 1, not 2. -/
theorem toggleToday_double_counterexample :
    ((toggleToday (toggleToday (mkAccount 2 0 []) noonInstant "q").1
        noonInstant "q").1).level ≠ (mkAccount 2 0 []).level := by
  have hw : ledGet (mkAccount 2 0 []).dailyCompletions
      (todayKey noonInstant (mkAccount 2 0 []).dayResetHour) "q" = false := by
    decide
  rw [toggleToday_gain hw]
  dsimp only [mkAccount]
  have hup : levelUpLoop (0 + EXPPerQuest) 2 = (2, false) :=
    levelUpLoop_stop (by decide)
  rw [hup]
  dsimp only
  have hw2 : ledGet (ledSet [] (todayKey noonInstant 4) "q" true)
      (todayKey noonInstant 4) "q" = true := by decide
  rw [toggleToday_loss hw2]
  dsimp only
  have hdown : levelDownLoop
      (if 0 + EXPPerQuest - EXPPerQuest < 0 then 0
       else 0 + EXPPerQuest - EXPPerQuest) 2 = 1 := by
    rw [if_neg (by decide)]
    have h1 : levelDownLoop (0 + EXPPerQuest - EXPPerQuest) 2 =
        levelDownLoop (0 + EXPPerQuest - EXPPerQuest) 1 := by
      apply levelDownLoop_step
      decide
    rw [h1]
    apply levelDownLoop_stop
    decide
  rw [hdown]
  decide

-- Streak-bound invariant (C6).

theorem toggleToday_streak_fields (u : UserData) (now : Instant) (q : String) :
    (toggleToday u now q).1.currentStreak = u.currentStreak ∧
      (toggleToday u now q).1.longestStreak = u.longestStreak := by
  cases hw : ledGet u.dailyCompletions (todayKey now u.dayResetHour) q with
  | false =>
      rw [toggleToday_gain hw]
      exact ⟨rfl, rfl⟩
  | true =>
      rw [toggleToday_loss hw]
      exact ⟨rfl, rfl⟩

theorem updateStreak_streakInv (u : UserData) (now : Instant)
    (h : StreakInv u) : StreakInv (updateStreak u now) := by
  obtain ⟨h0, h1⟩ := h
  rw [updateStreak_eq_refreshStreakSpec]
  unfold refreshStreakSpec StreakInv
  dsimp only
  split_ifs <;> constructor <;> (try simp) <;> omega

theorem applyOp_streakInv (u : UserData) (op : AccountOp)
    (h : StreakInv u) : StreakInv (applyOp u op) := by
  cases op with
  | toggle now q =>
      obtain ⟨hc, hl⟩ := toggleToday_streak_fields u now q
      unfold StreakInv at *
      rw [applyOp, hc, hl]
      exact h
  | refresh now => exact updateStreak_streakInv u now h
  | addQuest t n =>
      unfold StreakInv at *
      rw [applyOp]
      exact h
  | removeQuest i =>
      unfold StreakInv at *
      rw [applyOp]
      unfold removeHabit
      split
      · exact h
      · exact h
  | setResetHour hr =>
      unfold StreakInv at *
      rw [applyOp]
      unfold updateDayResetHour
      split
      · exact h
      · exact h

theorem foldl_applyOp_streakInv (ops : List AccountOp) (u : UserData)
    (h : StreakInv u) : StreakInv (ops.foldl applyOp u) := by
  induction ops generalizing u with
  | nil => exact h
  | cons op rest ih => exact ih (applyOp u op) (applyOp_streakInv u op h)

/-- Claim C6: for every account state with `longestStreak ≥ currentStreak ≥ 0`,
any single operation (completion toggle, streak refresh, quest add/remove,
settings update) preserves that bound; consequently it holds after any
sequence of operations applied to a freshly created account. -/
theorem streak_bound_invariant :
    (∀ (u : UserData) (op : AccountOp),
        StreakInv u → StreakInv (applyOp u op)) ∧
      ∀ (username hash : String) (ops : List AccountOp),
        StreakInv (ops.foldl applyOp (newUserData username hash)) := by
  refine ⟨applyOp_streakInv, ?_⟩
  intro username hash ops
  exact foldl_applyOp_streakInv ops (newUserData username hash)
    ⟨le_refl 0, le_refl 0⟩

/-- Witness for `streak_bound_invariant` at a concrete input. -/
theorem streak_bound_invariant_witness :
    StreakInv (mkAccount 1 0 []) ∧
      StreakInv (applyOp (mkAccount 1 0 []) (.setResetHour 5)) := by
  exact ⟨by decide,
    streak_bound_invariant.1 (mkAccount 1 0 []) (.setResetHour 5) (by decide)⟩

-- Virtual-calendar day-key policy (C7).

/-- Membership of an instant in the reset-to-reset window that starts at
`resetHour` on date `D` and ends just before `resetHour` on date `D+1`
(hours are wall-clock hours, `0 ≤ hour ≤ 23`). -/
def inResetWindow (resetHour D : Int) (t : Instant) : Prop :=
  0 ≤ t.hour ∧ t.hour ≤ 23 ∧
    ((t.day = D ∧ resetHour ≤ t.hour) ∨ (t.day = D + 1 ∧ t.hour < resetHour))

instance (r D : Int) : DecidablePred (inResetWindow r D) := fun t => by
  unfold inResetWindow
  infer_instance

/-- Claim C7: for every instant and reset hour in [0,23], `TodayKey` yields the
previous calendar date exactly when the wall-clock hour is strictly below the
reset hour and the current date otherwise; the key is constant on each
reset-to-reset window; and at the boundary it changes — in particular, for
reset hour 4, 03:59 on date D yields key D−1 while 04:00 on date D yields
key D, and in general the last minute before the reset instant carries key
D−1 while the reset instant itself carries key D. -/
theorem todayKey_policy :
    (∀ (t : Instant) (r : Int), 0 ≤ r → r ≤ 23 →
        (t.hour < r → todayKey t r = t.day - 1) ∧
          (¬ t.hour < r → todayKey t r = t.day)) ∧
      (∀ (r D : Int) (t₁ t₂ : Instant), inResetWindow r D t₁ →
        inResetWindow r D t₂ → todayKey t₁ r = todayKey t₂ r) ∧
      (∀ D : Int,
        todayKey { day := D, hour := 3, min := 59 } 4 = D - 1 ∧
          todayKey { day := D, hour := 4, min := 0 } 4 = D) ∧
      (∀ (r D : Int), 0 ≤ r → r ≤ 23 →
        todayKey { day := D, hour := r, min := 0 } r = D ∧
          todayKey
            (if 0 < r then { day := D, hour := r - 1, min := 59 }
             else { day := D - 1, hour := 23, min := 59 }) r = D - 1) := by
  refine ⟨?_, ?_, ?_, ?_⟩
  · intro t r _ _
    constructor
    · intro h
      unfold todayKey Instant.sub24h
      rw [if_pos h]
    · intro h
      unfold todayKey Instant.sub24h
      rw [if_neg h]
  · intro r D t₁ t₂ h₁ h₂
    obtain ⟨hh₁, hh₁', hcase₁⟩ := h₁
    obtain ⟨hh₂, hh₂', hcase₂⟩ := h₂
    have k₁ : todayKey t₁ r = D := by
      unfold todayKey Instant.sub24h
      rcases hcase₁ with ⟨hd, hr⟩ | ⟨hd, hr⟩
      · rw [if_neg (by omega)]
        omega
      · rw [if_pos hr]
        simp
        omega
    have k₂ : todayKey t₂ r = D := by
      unfold todayKey Instant.sub24h
      rcases hcase₂ with ⟨hd, hr⟩ | ⟨hd, hr⟩
      · rw [if_neg (by omega)]
        omega
      · rw [if_pos hr]
        simp
        omega
    rw [k₁, k₂]
  · intro D
    constructor
    · unfold todayKey Instant.sub24h
      rw [if_pos (by norm_num)]
    · unfold todayKey Instant.sub24h
      rw [if_neg (by norm_num)]
  · intro r D h0 h23
    constructor
    · unfold todayKey Instant.sub24h
      rw [if_neg (by simp)]
    · by_cases hr : 0 < r
      · rw [if_pos hr]
        unfold todayKey Instant.sub24h
        rw [if_pos (by simp)]
      · rw [if_neg hr]
        unfold todayKey Instant.sub24h
        rw [if_neg (by simp; omega)]

/-- Witness for `todayKey_policy` at a concrete input (reset hour 4,
window of date 0, instants 23:00 on date 0 and 03:00 on date 1). -/
theorem todayKey_policy_witness :
    ((0 : Int) ≤ 4 ∧ (4 : Int) ≤ 23 ∧
        inResetWindow 4 0 { day := 0, hour := 23, min := 0 } ∧
        inResetWindow 4 0 { day := 1, hour := 3, min := 0 }) ∧
      todayKey { day := 0, hour := 23, min := 0 } 4 =
        todayKey { day := 1, hour := 3, min := 0 } 4 := by
  refine ⟨⟨by norm_num, by norm_num, by decide, by decide⟩, ?_⟩
  exact todayKey_policy.2.1 4 0 { day := 0, hour := 23, min := 0 }
    { day := 1, hour := 3, min := 0 } (by decide) (by decide)

-- Stat-allocation totals (C3).

theorem randomFallback_total (points : Int) (r1 r2 r3 : Nat) :
    (randomFallback points r1 r2 r3).STR + (randomFallback points r1 r2 r3).VIT +
      (randomFallback points r1 r2 r3).AGI +
      (randomFallback points r1 r2 r3).INT = points := by
  unfold randomFallback
  dsimp only
  ring

theorem normalizeStats_total (stats : StatResponse) (targetPoints : Int)
    (scaled : Int → Int) (r1 r2 r3 : Nat) :
    (normalizeStats stats targetPoints scaled r1 r2 r3).STR +
      (normalizeStats stats targetPoints scaled r1 r2 r3).VIT +
      (normalizeStats stats targetPoints scaled r1 r2 r3).AGI +
      (normalizeStats stats targetPoints scaled r1 r2 r3).INT = targetPoints := by
  unfold normalizeStats
  dsimp only
  by_cases htot : stats.STR + stats.VIT + stats.AGI + stats.INT = 0
  · rw [if_pos htot]
    exact randomFallback_total targetPoints r1 r2 r3
  · rw [if_neg htot]
    generalize scaled stats.STR = a
    generalize scaled stats.VIT = b
    generalize scaled stats.AGI = c
    generalize scaled stats.INT = d
    split_ifs <;> (try dsimp only) <;> omega

/-- Claim C3 (amended): for every oracle outcome — failure, a parsed response
whose four values already sum to the 4-point budget, or one requiring
normalization, and for every behaviour of the float rescale and of the random
draws — the stat split `GetLevelUpStats` returns sums to exactly 4.  The
non-negativity half of the original claim is false (see the
counterexample): only the total, not the sign of each value, is
validated. -/
theorem getLevelUpStats_total (o : OracleOutcome) (scaled : Int → Int)
    (r1 r2 r3 : Nat) :
    (getLevelUpStats o scaled r1 r2 r3).STR +
      (getLevelUpStats o scaled r1 r2 r3).VIT +
      (getLevelUpStats o scaled r1 r2 r3).AGI +
      (getLevelUpStats o scaled r1 r2 r3).INT = 4 := by
  cases o with
  | failure => exact randomFallback_total 4 r1 r2 r3
  | parsed stats =>
      unfold getLevelUpStats
      dsimp only
      split_ifs with h
      · exact normalizeStats_total stats 4 scaled r1 r2 r3
      · omega

/-- Claim C3 fails as frozen: the oracle response
`{"str": -5, "vit": 9, "agi": 0, "int": 0}` sums to the budget, so
`GetLevelUpStats` applies it verbatim with a negative strength value. -/
theorem getLevelUpStats_negative_counterexample :
    getLevelUpStats
        (.parsed { STR := -5, VIT := 9, AGI := 0, INT := 0 }) id 0 0 0 =
        { STR := -5, VIT := 9, AGI := 0, INT := 0 } ∧
      (getLevelUpStats
        (.parsed { STR := -5, VIT := 9, AGI := 0, INT := 0 }) id 0 0 0).STR
        < 0 := by
  constructor
  · decide
  · decide

-- Persistence round trip (C8).

/-- Claim C8 (amended): save-then-load is the identity exactly on states whose
stored values do not collide with the zero-value defaults — level at least 1,
reset hour within [0,23] and all four stats non-zero.  The schema-upgrade
defaults are keyed on stored *values* (a stat equal to 0, a level below 1, an
out-of-range reset hour), not on fields being literally absent, so a
legitimately stored stat value of 0 is replaced by `10 + level` rather than
preserved (see the counterexample). -/
theorem loadUser_saveUser_roundtrip (u : UserData) (hlvl : 1 ≤ u.level)
    (hrh0 : 0 ≤ u.dayResetHour) (hrh23 : u.dayResetHour ≤ 23)
    (hstr : u.STR ≠ 0) (hvit : u.VIT ≠ 0) (hagi : u.AGI ≠ 0)
    (hint : u.INT ≠ 0) :
    loadUser (saveUser u) = u := by
  have h0 : ofRecord (saveUser u) = u := rfl
  unfold loadUser
  rw [h0]
  unfold fixLevel
  rw [if_neg (by omega)]
  unfold fixResetHour
  rw [if_neg (by omega)]
  unfold fixSTR
  rw [if_neg hstr]
  unfold fixVIT
  rw [if_neg hvit]
  unfold fixAGI
  rw [if_neg hagi]
  unfold fixINT
  rw [if_neg hint]

/-- Witness for `loadUser_saveUser_roundtrip` at a concrete input. -/
theorem loadUser_saveUser_roundtrip_witness :
    (1 ≤ (mkAccount 1 30 []).level ∧ 0 ≤ (mkAccount 1 30 []).dayResetHour ∧
        (mkAccount 1 30 []).dayResetHour ≤ 23 ∧ (mkAccount 1 30 []).STR ≠ 0 ∧
        (mkAccount 1 30 []).VIT ≠ 0 ∧ (mkAccount 1 30 []).AGI ≠ 0 ∧
        (mkAccount 1 30 []).INT ≠ 0) ∧
      loadUser (saveUser (mkAccount 1 30 [])) = mkAccount 1 30 [] := by
  refine ⟨by decide, ?_⟩
  exact loadUser_saveUser_roundtrip (mkAccount 1 30 []) (by decide) (by decide)
    (by decide) (by decide) (by decide) (by decide) (by decide)

/-- Claim C8 fails as frozen: a record legitimately storing strength 0 at
level 1 does not round-trip — load replaces the stored 0 by the default
`10 + level = 11`, although the field is present in the stored record. -/
theorem loadUser_zero_stat_counterexample :
    (loadUser (saveUser { mkAccount 1 30 [] with STR := 0 })).STR = 11 ∧
      ({ mkAccount 1 30 [] with STR := 0 } : UserData).STR = 0 ∧
      loadUser (saveUser { mkAccount 1 30 [] with STR := 0 }) ≠
        { mkAccount 1 30 [] with STR := 0 } := by
  refine ⟨by decide, by decide, ?_⟩
  intro h
  have := congrArg UserData.STR h
  revert this
  decide

-- Quest-id generation (C9).

/-- The numeric value of a decimal digit character. -/
def digitVal (c : Char) : Nat := c.toNat - 48

theorem digitVal_digitChar {d : Nat} (hd : d < 10) :
    digitVal (Nat.digitChar d) = d := by
  interval_cases d <;> rfl

theorem string_data_append (a b : String) : (a ++ b).data = a.data ++ b.data :=
  rfl

theorem map_digitChar_inj {l1 l2 : List Nat} (h1 : ∀ x ∈ l1, x < 10)
    (h2 : ∀ x ∈ l2, x < 10)
    (h : l1.map Nat.digitChar = l2.map Nat.digitChar) : l1 = l2 := by
  have hmm := congrArg (List.map digitVal) h
  rw [List.map_map, List.map_map] at hmm
  calc l1 = l1.map (digitVal ∘ Nat.digitChar) := by
        rw [List.map_congr_left fun a ha => by
          simpa using digitVal_digitChar (h1 a ha)]
        simp
    _ = l2.map (digitVal ∘ Nat.digitChar) := hmm
    _ = l2 := by
        rw [List.map_congr_left fun a ha => by
          simpa using digitVal_digitChar (h2 a ha)]
        simp

theorem decChars_ne_singleton_zero {n : Nat} (hn : n ≠ 0) :
    ¬ ((Nat.digits 10 n).map Nat.digitChar).reverse = ['0'] := by
  intro h
  rw [List.reverse_eq_iff] at h
  simp only [List.reverse_singleton] at h
  cases hd : Nat.digits 10 n with
  | nil => exact (Nat.digits_ne_nil_iff_ne_zero.mpr hn) hd
  | cons d rest =>
      rw [hd] at h
      simp only [List.map_cons, List.cons.injEq] at h
      obtain ⟨hchar, hrest⟩ := h
      have hlt : d < 10 :=
        Nat.digits_lt_base (by norm_num) (by rw [hd]; exact List.mem_cons_self d rest)
      have hd0 : d = 0 := by
        have := digitVal_digitChar hlt
        rw [hchar] at this
        simpa [digitVal] using this.symm
      have hrest' : rest = [] := by
        cases rest with
        | nil => rfl
        | cons a l => simp at hrest
      have hofd := Nat.ofDigits_digits 10 n
      rw [hd, hrest'] at hofd
      simp [Nat.ofDigits] at hofd
      exact hn (by omega)

theorem decChars_inj {m n : Nat} (h : decChars m = decChars n) : m = n := by
  unfold decChars at h
  by_cases hm : m = 0 <;> by_cases hn : n = 0
  · rw [hm, hn]
  · rw [if_pos hm, if_neg hn] at h
    exact absurd h.symm (decChars_ne_singleton_zero hn)
  · rw [if_neg hm, if_pos hn] at h
    exact absurd h (decChars_ne_singleton_zero hm)
  · rw [if_neg hm, if_neg hn] at h
    rw [List.reverse_inj] at h
    have hdig : Nat.digits 10 m = Nat.digits 10 n :=
      map_digitChar_inj
        (fun x hx => Nat.digits_lt_base (by norm_num) hx)
        (fun x hx => Nat.digits_lt_base (by norm_num) hx) h
    exact Nat.digits.injective 10 hdig

theorem natDec_inj {m n : Nat} (h : natDec m = natDec n) : m = n := by
  apply decChars_inj
  have := congrArg String.data h
  simpa [natDec] using this

/-- Claim C9 (amended): two `AddHabit` calls generate distinct quest ids
whenever the `UnixNano` values they observe differ; the id embeds the
timestamp injectively (`h_` followed by its decimal rendering).  Under equal
observed timestamps — rapid successive additions within the clock's
resolution — the generated ids collide (see the counterexample), so
uniqueness as frozen does not hold. -/
theorem addHabit_id_unique (u u' : UserData) (t t' : Nat) (s s' : String)
    (hne : t ≠ t') : (addHabit u t s).2.id ≠ (addHabit u' t' s').2.id := by
  intro heq
  apply hne
  apply natDec_inj
  dsimp [addHabit] at heq
  have hd := congrArg String.data heq
  rw [string_data_append, string_data_append] at hd
  have := List.append_cancel_left hd
  exact congrArg String.mk this

/-- Witness for `addHabit_id_unique` at a concrete input. -/
theorem addHabit_id_unique_witness :
    (1 : Nat) ≠ 2 ∧
      (addHabit (mkAccount 1 0 []) 1 "read").2.id ≠
        (addHabit (mkAccount 1 0 []) 2 "gym").2.id :=
  ⟨by decide,
    addHabit_id_unique (mkAccount 1 0 []) (mkAccount 1 0 []) 1 2 "read" "gym"
      (by decide)⟩

/-- Claim C9 fails as frozen: two successive `AddHabit` calls observing the
same `UnixNano` value (rapid additions within the clock's resolution)
generate the same id. -/
theorem addHabit_id_collision :
    ((addHabit ((addHabit (mkAccount 1 0 []) 7 "read").1) 7 "gym").2).id =
      ((addHabit (mkAccount 1 0 []) 7 "read").2).id := rfl
